import Mathlib

/-!
Shallow embedding of the module-graph core of cyclonedx-gomod
(internal/gomod/gomod.go and internal/gomod/version.go).

Strings model Go strings; external effects (the go command, the
filesystem, git repositories, dirhash) are modelled as explicit
environment records passed to the embedded functions.
-/

namespace Gomod

/-- The `Module` record from gomod.go (`type Module struct`).
`Replace` is a pointer to another `Module`, hence the recursive
inductive; `Dependencies` (a slice of pointers populated only by
`parseModuleGraph`) is modelled separately as the edge list returned
by the embedded `parseModuleGraph`. -/
inductive Module : Type where
  | mk : (dir : String) → (main : Bool) → (path : String) →
         (replace : Option Module) → (version : String) →
         (vendored : Bool) → Module

/-- Field accessor: `Module.Dir`. -/
def Module.dir : Module → String
  | .mk d _ _ _ _ _ => d

/-- Field accessor: `Module.Main`. -/
def Module.isMain : Module → Bool
  | .mk _ m _ _ _ _ => m

/-- Field accessor: `Module.Path`. -/
def Module.path : Module → String
  | .mk _ _ p _ _ _ => p

/-- Field accessor: `Module.Replace`. -/
def Module.replace : Module → Option Module
  | .mk _ _ _ r _ _ => r

/-- Field accessor: `Module.Version`. -/
def Module.version : Module → String
  | .mk _ _ _ _ v _ => v

/-- Field accessor: `Module.Vendored`. -/
def Module.vendored : Module → Bool
  | .mk _ _ _ _ _ v => v

/-- Functional update of `Module.Path` (models `module.Path = ...`). -/
def Module.withPath : Module → String → Module
  | .mk d m _ r v ven, p => .mk d m p r v ven

/-- Functional update of `Module.Version` (models `module.Version = ...`). -/
def Module.withVersion : Module → String → Module
  | .mk d m p r _ ven, v => .mk d m p r v ven

/-- Functional update of `Module.Replace`. -/
def Module.withReplace : Module → Option Module → Module
  | .mk d m p _ v ven, r => .mk d m p r v ven

/-- Functional update of `Module.Vendored`. -/
def Module.withVendored : Module → Bool → Module
  | .mk d m p r v _, ven => .mk d m p r v ven

/-- Model of `Module.Coordinates()`: `Path` when `Version` is empty, else
`Path@Version`. -/
def Module.coordinates (m : Module) : String :=
  if m.version = "" then m.path else m.path ++ "@" ++ m.version

/-- Model of `Module.PackageURL()`. -/
def Module.packageURL (m : Module) : String :=
  "pkg:golang/" ++ m.coordinates

/-- Model of `Module.Hash()`: delegates to `dirhash.HashDir(m.Dir, m.Coordinates(),
dirhash.Hash1)`. The external `dirhash.HashDir` call is modelled by the
`hashDir` argument (directory, salt prefix ↦ hash or error), exactly as the
method forwards to it. -/
def Module.hashWith (hashDir : String → String → Except String String)
    (m : Module) : Except String String :=
  match hashDir m.dir m.coordinates with
  | .error err => .error err
  | .ok h1 => .ok h1

/-- Model of `strings.TrimSpace`: drop leading and trailing whitespace
(implemented over the character list so that it evaluates by kernel
reduction). -/
def trimSpace (s : String) : String :=
  ⟨((s.data.dropWhile Char.isWhitespace).reverse.dropWhile
      Char.isWhitespace).reverse⟩

/-- Model of `strings.HasPrefix`. -/
def strStartsWith (s pre : String) : Bool :=
  pre.data.isPrefixOf s.data

/-- The first `n` characters of a string (Go string slicing `s[:n]` on
ASCII data). -/
def strTake (s : String) (n : Nat) : String :=
  ⟨s.data.take n⟩

/-- Model of `strings.Fields`: split around runs of whitespace, dropping empty
pieces. -/
def strFields (s : String) : List String :=
  ((s.data.splitOnP (fun c => c.isWhitespace)).filter
    (fun t => t ≠ [])).map (fun t => ⟨t⟩)

/-- Model of `strings.TrimPrefix`: drop `pre` when it is a prefix, else return the
string unchanged. -/
def trimPrefixOf (s pre : String) : String :=
  if strStartsWith s pre then ⟨s.data.drop pre.length⟩ else s

/-- Function `findModule` from gomod.go: first module in the slice whose
coordinates match; when that module has `Replace` set, the replacement is
returned instead of the module itself. -/
def findModule : List Module → String → Option Module
  | [], _ => none
  | m :: rest, coordinates =>
    if coordinates = m.coordinates then
      match m.replace with
      | some r => some r
      | none => some m
    else findModule rest coordinates

/-- Function `parseModuleGraph` from gomod.go, as the list of dependency edges it
appends (in input order): each non-blank line must have exactly two
fields; both endpoints are resolved through `findModule` and the line is
skipped when either endpoint is not found. -/
def parseModuleGraph (lines : List String) (modules : List Module) :
    Except String (List (Module × Module)) :=
  match lines with
  | [] => .ok []
  | l :: rest =>
    let line := trimSpace l
    if line = "" then parseModuleGraph rest modules
    else
      let fields := strFields line
      if fields.length ≠ 2 then
        .error ("expected two fields per line, but got " ++
          toString fields.length ++ ": " ++ line)
      else
        match findModule modules (fields.getD 0 "") with
        | none => parseModuleGraph rest modules
        | some dependant =>
          match findModule modules (fields.getD 1 "") with
          | none => parseModuleGraph rest modules
          | some dependency =>
            match parseModuleGraph rest modules with
            | .error err => .error err
            | .ok edges => .ok ((dependant, dependency) :: edges)

/-- Outcome of running a Go function that may return a value, return an
error, or panic at runtime (`panic` models an uncaught runtime panic such
as an out-of-range slice index). -/
inductive POut (α : Type) : Type where
  | ok : α → POut α
  | err : String → POut α
  | crash : POut α
deriving DecidableEq

/-- Modelled from the spec: `util.StringSliceIndex` (its source is not
under src/): the index of the first occurrence of `s` in the slice, `-1`
when absent — "the arrow token separates original from replacement". -/
def stringSliceIndex : List String → String → Int
  | [], _ => -1
  | x :: rest, s =>
    if x = s then 0
    else
      let r := stringSliceIndex rest s
      if r = -1 then -1 else r + 1

/-- Model of `filepath.Join` restricted to the behaviour exercised here: join the
non-empty elements with the path separator (no `..`/`.` cleaning occurs
for the inputs of interest). -/
def filepathJoin : List String → String
  | [] => ""
  | [x] => x
  | x :: rest => x ++ "/" ++ filepathJoin rest

/-- One descriptive line of `parseVendoredModules` after the `# ` prefix
was stripped and the line split into fields: the body of the loop in
gomod.go. `fields[arrowIndex+1]` is an unguarded slice index in the Go
code, so a missing field there is a runtime panic, not an error return. -/
def parseVendorFields (path : String) (line : String)
    (fields : List String) : POut Module :=
  let arrowIndex := stringSliceIndex fields "=>"
  if arrowIndex = -1 then
    if fields.length ≠ 2 then
      .err ("expected two fields per line, but got " ++
        toString fields.length ++ ": " ++ line)
    else
      .ok (.mk (filepathJoin [path, "vendor", fields.getD 0 ""]) false
        (fields.getD 0 "") none (fields.getD 1 "") true)
  else
    let pathParent := fields.getD 0 ""
    let versionParent := if arrowIndex = 2 then fields.getD 1 "" else ""
    match fields.get? (arrowIndex.toNat + 1) with
    | none => .crash
    | some pathReplacement =>
      let versionReplacement :=
        if fields.length = arrowIndex.toNat + 3 then
          fields.getD (arrowIndex.toNat + 2) ""
        else ""
      .ok (.mk "" false pathParent
        (some (.mk (filepathJoin [path, "vendor", pathParent]) false
          pathReplacement none versionReplacement true))
        versionParent false)

/-- Function `parseVendoredModules` from gomod.go: scan the `go mod vendor -v`
output line by line; lines not starting with `# ` are skipped, the rest
are parsed by `parseVendorFields` in order. -/
def parseVendoredModules (path : String) (lines : List String) :
    POut (List Module) :=
  match lines with
  | [] => .ok []
  | l :: rest =>
    let line := trimSpace l
    if strStartsWith line "# " then
      match parseVendorFields path line (strFields (trimPrefixOf line "# ")) with
      | .err e => .err e
      | .crash => .crash
      | .ok m =>
        match parseVendoredModules path rest with
        | .ok ms => .ok (m :: ms)
        | .err e => .err e
        | .crash => .crash
    else parseVendoredModules path rest

/-- A git reference as consumed by version.go: a full name (such as
`refs/tags/v1.0.0` or `HEAD`) and the hash it points at. -/
structure GitReference : Type where
  name : String
  hash : String
deriving DecidableEq

/-- A commit author time, the only part of `time.Time` consumed by
`GetPseudoVersion`. -/
structure GitTime : Type where
  year : Nat
  month : Nat
  day : Nat
  hour : Nat
  minute : Nat
  second : Nat
deriving DecidableEq

/-- A commit as consumed by `GetPseudoVersion`: its full hash string and
its author time. -/
structure GitCommit : Type where
  hash : String
  authorWhen : GitTime
deriving DecidableEq

/-- The state of a git repository as consumed by version.go:
the results of `repo.Head()` and `repo.Tags()`, and the commit store
backing `repo.CommitObject`. -/
structure GitRepo : Type where
  head : Except String GitReference
  tags : Except String (List GitReference)
  commits : List (String × GitCommit)

/-- Model of `repo.CommitObject(hash)`: look the hash up in the commit store. -/
def GitRepo.commitObject (repo : GitRepo) (hash : String) :
    Except String GitCommit :=
  match repo.commits.lookup hash with
  | some c => .ok c
  | none => .error "object not found"

/-- The decimal digit character for `n < 10`. -/
def digitChar (n : Nat) : Char := Char.ofNat (48 + n)

/-- Decimal digits of `n`, least significant first (empty for 0),
computed with explicit fuel so that it is structurally recursive and
evaluates by kernel reduction; `fuel ≥ n` always suffices because the
argument shrinks by a factor of ten each step. -/
def natDigitsRevAux : Nat → Nat → List Char
  | _, 0 => []
  | 0, _ + 1 => []
  | fuel + 1, n + 1 => digitChar ((n + 1) % 10) :: natDigitsRevAux fuel ((n + 1) / 10)

/-- Decimal digits of `n`, least significant first (empty for 0). -/
def natDigitsRev (n : Nat) : List Char := natDigitsRevAux n n

/-- Decimal representation of `n`, most significant first. -/
def natToDec (n : Nat) : List Char :=
  if n = 0 then ['0'] else (natDigitsRev n).reverse

/-- A natural number printed in decimal, zero-padded to `width` digits:
the behaviour of Go's `time.Time.Format` numeric fields. -/
def padNum (width n : Nat) : String :=
  ⟨List.replicate (width - (natToDec n).length) '0' ++ natToDec n⟩

/-- Model of `t.Format("20060102150405")`: the author time as a fixed-width
numeric `YYYYMMDDHHMMSS` string. -/
def GitTime.format14 (t : GitTime) : String :=
  padNum 4 t.year ++ padNum 2 t.month ++ padNum 2 t.day ++
    padNum 2 t.hour ++ padNum 2 t.minute ++ padNum 2 t.second

/-- Function `GetPseudoVersion` from version.go. The `plainOpen` argument is the
result of `git.PlainOpen(modulePath)` on the given directory. -/
def GetPseudoVersion (plainOpen : Except String GitRepo) :
    Except String String :=
  match plainOpen with
  | .error e => .error e
  | .ok repo =>
    match repo.head with
    | .error e => .error e
    | .ok headRef =>
      match repo.commitObject headRef.hash with
      | .error e => .error e
      | .ok headCommit =>
        .ok ("v0.0.0-" ++ headCommit.authorWhen.format14 ++ "-" ++
          strTake headCommit.hash 12)

/-- The `tags.ForEach` loop of `GetVersionFromTag`: the name (with the
`refs/tags/` namespace stripped) of the first reference whose hash equals
the head hash and whose full name starts with `refs/tags/v`
(`util.StartsWith`, not under src/, is modelled from the spec as a
string-prefix test: "the tag's name begins with the conventional prefix
denoting a semantic version"). Returns `""` when no reference matches. -/
def findTagName (headHash : String) : List GitReference → String
  | [] => ""
  | t :: rest =>
    if t.hash = headHash && strStartsWith t.name "refs/tags/v" then
      trimPrefixOf t.name "refs/tags/"
    else findTagName headHash rest

/-- Function `GetVersionFromTag` from version.go. -/
def GetVersionFromTag (plainOpen : Except String GitRepo) :
    Except String String :=
  match plainOpen with
  | .error e => .error e
  | .ok repo =>
    match repo.head with
    | .error e => .error e
    | .ok headRef =>
      match repo.tags with
      | .error e => .error e
      | .ok tags =>
        let tagName := findTagName headRef.hash tags
        if tagName = "" then .error "object not found"
        else .ok tagName

/-- Function `GetModuleVersion` from version.go: try `GetVersionFromTag` first;
on its failure fall back to `GetPseudoVersion`, whose error (alone) is
returned when it also fails — the tag error is dropped. -/
def GetModuleVersion (plainOpen : Except String GitRepo) :
    Except String String :=
  match GetVersionFromTag plainOpen with
  | .ok tagVersion => .ok tagVersion
  | .error _ =>
    match GetPseudoVersion plainOpen with
    | .error e => .error e
    | .ok pseudoVersion => .ok pseudoVersion

/-- Constant `ErrNoGoModule` from gomod.go. -/
def errNoGoModule : String := "not a Go module"

/-- The external collaborators of gomod.go whose sources are not under
src/, modelled from the spec as opaque oracles: `util.IsGoModule` (is a
path a valid module root), `util.GetModuleCacheDir` (the shared module
cache root), `gocmd.GetModule` plus its JSON decoding (query the module
record rooted at a directory), and `git.PlainOpen` (open a directory as
a git repository, feeding version.go). -/
structure GoEnv : Type where
  isGoModule : String → Bool
  moduleCacheDir : String
  getModule : String → Except String Module
  plainOpen : String → Except String GitRepo

/-- Model of `filepath.IsAbs` on unix: the path starts with `/`. -/
def filepathIsAbs (p : String) : Bool := strStartsWith p "/"

/-- Function `resolveLocalModule` from gomod.go, returning the updated `module`
(the Go code mutates it through a pointer). -/
def resolveLocalModule (env : GoEnv) (mainModulePath : String)
    (module : Module) : Except String Module :=
  if env.isGoModule module.dir && strStartsWith module.dir env.moduleCacheDir then
    .ok module
  else
    let modulePath :=
      if filepathIsAbs module.path then module.path
      else filepathJoin [mainModulePath, module.path]
    if !env.isGoModule modulePath then .error errNoGoModule
    else
      match env.getModule modulePath with
      | .error e => .error e
      | .ok localModule =>
        let module := module.withPath localModule.path
        if module.version = "" then
          match GetModuleVersion (env.plainOpen module.dir) with
          | .ok version => .ok (module.withVersion version)
          | .error _ => .ok module
        else .ok module

/-- The replacement-resolution loop of `GetModules` (gomod.go): for every
module whose `Replace` is set and whose `Replace.Path` is a valid module
root on disk, run `resolveLocalModule` on the replacement; its failure
aborts the whole build with a wrapped error. -/
def resolveReplacements (env : GoEnv) (path : String) :
    List Module → Except String (List Module)
  | [] => .ok []
  | m :: rest =>
    match m.replace with
    | none =>
      match resolveReplacements env path rest with
      | .error e => .error e
      | .ok ms => .ok (m :: ms)
    | some r =>
      if env.isGoModule r.path then
        match resolveLocalModule env path r with
        | .error e =>
          .error ("resolving local module " ++ r.coordinates ++
            " failed: " ++ e)
        | .ok r2 =>
          match resolveReplacements env path rest with
          | .error e => .error e
          | .ok ms => .ok (m.withReplace (some r2) :: ms)
      else
        match resolveReplacements env path rest with
        | .error e => .error e
        | .ok ms => .ok (m :: ms)

/-! Theorems. -/

/-- C1: for every module record with `Replace` set, looking the module
list up by that record's coordinate (`Path`, or `Path@Version` when the
version is non-empty) yields the `Replace` target, never the record
itself, while records without `Replace` are returned as themselves
(`m.replace.getD m` covers both); and `parseModuleGraph` resolves each
edge endpoint through this same one-hop `findModule` indirection, the
resolved pair being the edge it appends. -/
theorem findModule_replacement_precedence :
    (∀ (pre post : List Module) (m : Module),
      (∀ m' ∈ pre, m'.coordinates ≠ m.coordinates) →
      findModule (pre ++ m :: post) m.coordinates = some (m.replace.getD m))
    ∧
    (∀ (modules : List Module) (rest : List String) (l a b : String)
      (da db : Module),
      trimSpace l ≠ "" → strFields (trimSpace l) = [a, b] →
      findModule modules a = some da → findModule modules b = some db →
      parseModuleGraph (l :: rest) modules =
        (parseModuleGraph rest modules).map (fun es => (da, db) :: es)) := by
  constructor
  · intro pre post m hfirst
    induction pre with
    | nil =>
      simp only [List.nil_append, findModule, if_pos rfl]
      cases hr : m.replace <;> simp [hr]
    | cons p pre ih =>
      have hne : m.coordinates ≠ p.coordinates :=
        fun h => hfirst p (by simp) h.symm
      simp only [List.cons_append, findModule, if_neg hne]
      exact ih fun m' hm' => hfirst m' (List.mem_cons_of_mem _ hm')
  · intro modules rest l a b da db hnb hfs hda hdb
    simp only [parseModuleGraph, if_neg hnb, hfs]
    simp only [List.length_cons, List.length_nil, List.getD, List.get?,
      Option.getD_some, hda, hdb]
    norm_num
    cases h : parseModuleGraph rest modules <;> simp [Except.map, h]

/-- Witness for C1 at a concrete input: a two-module list where module
`a@v1` is replaced by `b@v2`; looking up `a@v1` returns the replacement,
and the edge line `m a@v1` links the main module to the replacement. -/
theorem findModule_replacement_precedence_witness :
    findModule
      [Module.mk "" true "m" none "" false,
       Module.mk "" false "a"
         (some (Module.mk "" false "b" none "v2" false)) "v1" false]
      "a@v1" = some (Module.mk "" false "b" none "v2" false) ∧
    parseModuleGraph ["m a@v1"]
      [Module.mk "" true "m" none "" false,
       Module.mk "" false "a"
         (some (Module.mk "" false "b" none "v2" false)) "v1" false] =
      .ok [(Module.mk "" true "m" none "" false,
            Module.mk "" false "b" none "v2" false)] := by
  constructor
  · have h := findModule_replacement_precedence.1
      [Module.mk "" true "m" none "" false] []
      (Module.mk "" false "a"
        (some (Module.mk "" false "b" none "v2" false)) "v1" false)
      (by intro m' hm'; simp at hm'; subst hm'; decide)
    simpa [Module.coordinates, Module.version, Module.path, Module.replace]
      using h
  · have h := findModule_replacement_precedence.2
      [Module.mk "" true "m" none "" false,
       Module.mk "" false "a"
         (some (Module.mk "" false "b" none "v2" false)) "v1" false]
      [] "m a@v1" "m" "a@v1"
      (Module.mk "" true "m" none "" false)
      (Module.mk "" false "b" none "v2" false)
      (by decide) (by decide) rfl rfl
    simpa [parseModuleGraph, Except.map] using h

/-- C4: a non-blank dependency-edge line that does not split into exactly
two whitespace-separated fields makes graph assembly fail (first
conjunct: some error is returned whenever such a line is present; third
conjunct: the error message is the descriptive one naming the field
count and the line); blank lines are skipped without error (second
conjunct). -/
theorem parseModuleGraph_malformed_fatal :
    (∀ (lines : List String) (modules : List Module) (l : String),
      l ∈ lines → trimSpace l ≠ "" → (strFields (trimSpace l)).length ≠ 2 →
      ∃ e, parseModuleGraph lines modules = .error e)
    ∧
    (∀ (lines : List String) (modules : List Module) (l : String),
      trimSpace l = "" →
      parseModuleGraph (l :: lines) modules = parseModuleGraph lines modules)
    ∧
    (∀ (modules : List Module) (l : String),
      trimSpace l ≠ "" → (strFields (trimSpace l)).length ≠ 2 →
      parseModuleGraph [l] modules =
        .error ("expected two fields per line, but got " ++
          toString (strFields (trimSpace l)).length ++ ": " ++ trimSpace l)) := by
  refine ⟨?_, ?_, ?_⟩
  · intro lines modules l hmem hnb hbad
    induction lines with
    | nil => cases hmem
    | cons hd tl ih =>
      rcases List.mem_cons.mp hmem with rfl | hmem'
      · refine ⟨"expected two fields per line, but got " ++
          toString (strFields (trimSpace l)).length ++ ": " ++ trimSpace l, ?_⟩
        simp only [parseModuleGraph, if_neg hnb, if_pos hbad]
      · rcases ih hmem' with ⟨e, he⟩
        by_cases h1 : trimSpace hd = ""
        · exact ⟨e, by simp only [parseModuleGraph, if_pos h1]; exact he⟩
        · by_cases h2 : (strFields (trimSpace hd)).length ≠ 2
          · refine ⟨"expected two fields per line, but got " ++
              toString (strFields (trimSpace hd)).length ++ ": " ++ trimSpace hd, ?_⟩
            simp only [parseModuleGraph, if_neg h1, if_pos h2]
          · refine ⟨e, ?_⟩
            simp only [parseModuleGraph, if_neg h1, if_neg h2]
            cases hf1 : findModule modules ((strFields (trimSpace hd)).getD 0 "") with
            | none => exact he
            | some da =>
              cases hf2 : findModule modules ((strFields (trimSpace hd)).getD 1 "") with
              | none => exact he
              | some db => rw [he]
  · intro lines modules l h1
    simp only [parseModuleGraph, if_pos h1]
  · intro modules l hnb hbad
    simp only [parseModuleGraph, if_neg hnb, if_pos hbad]

/-- Witness for C4 at concrete inputs: a three-field line errors with the
descriptive message, and a blank line is skipped. -/
theorem parseModuleGraph_malformed_fatal_witness :
    (∃ e, parseModuleGraph ["a b c"] [] = .error e) ∧
    parseModuleGraph ["  ", "a b c"] [] = parseModuleGraph ["a b c"] [] ∧
    parseModuleGraph ["a b c"] [] =
      .error "expected two fields per line, but got 3: a b c" := by
  refine ⟨?_, ?_, ?_⟩
  · exact parseModuleGraph_malformed_fatal.1 ["a b c"] [] "a b c"
      (by simp) (by decide) (by decide)
  · exact parseModuleGraph_malformed_fatal.2.1 ["a b c"] [] "  " (by decide)
  · have h := parseModuleGraph_malformed_fatal.2.2 [] "a b c"
      (by decide) (by decide)
    simpa using h

/-- C5: a well-formed two-field edge line in which either endpoint
resolves to no module is skipped: processing the remaining lines is
unchanged (so no edge is recorded for it and no other module's edges are
affected), and on its own the line yields a successful, empty edge
list. -/
theorem parseModuleGraph_dangling_skipped :
    (∀ (modules : List Module) (rest : List String) (l a b : String),
      trimSpace l ≠ "" → strFields (trimSpace l) = [a, b] →
      (findModule modules a = none ∨ findModule modules b = none) →
      parseModuleGraph (l :: rest) modules = parseModuleGraph rest modules)
    ∧
    (∀ (modules : List Module) (l a b : String),
      trimSpace l ≠ "" → strFields (trimSpace l) = [a, b] →
      (findModule modules a = none ∨ findModule modules b = none) →
      parseModuleGraph [l] modules = .ok []) := by
  have main : ∀ (modules : List Module) (rest : List String) (l a b : String),
      trimSpace l ≠ "" → strFields (trimSpace l) = [a, b] →
      (findModule modules a = none ∨ findModule modules b = none) →
      parseModuleGraph (l :: rest) modules = parseModuleGraph rest modules := by
    intro modules rest l a b hnb hfs hnone
    simp only [parseModuleGraph, if_neg hnb, hfs]
    simp only [List.length_cons, List.length_nil, List.getD, List.get?,
      Option.getD_some]
    norm_num
    rcases hnone with h | h
    · simp [h]
    · cases hf : findModule modules a <;> simp [h, hf]
  refine ⟨main, ?_⟩
  intro modules l a b hnb hfs hnone
  rw [main modules [] l a b hnb hfs hnone]
  rfl

/-- Witness for C5 at a concrete input: the edge line `m missing` whose
dependency endpoint is absent from the module list is skipped, and alone
it yields a successful empty edge list. -/
theorem parseModuleGraph_dangling_skipped_witness :
    parseModuleGraph ["m missing", "x y"] [Module.mk "" true "m" none "" false] =
      parseModuleGraph ["x y"] [Module.mk "" true "m" none "" false] ∧
    parseModuleGraph ["m missing"] [Module.mk "" true "m" none "" false] =
      .ok [] := by
  constructor
  · exact parseModuleGraph_dangling_skipped.1
      [Module.mk "" true "m" none "" false] ["x y"] "m missing" "m" "missing"
      (by decide) (by decide) (Or.inr rfl)
  · exact parseModuleGraph_dangling_skipped.2
      [Module.mk "" true "m" none "" false] "m missing" "m" "missing"
      (by decide) (by decide) (Or.inr rfl)

/-- C10: `Module.Hash` does not special-case vendored modules: for every
module (vendored or not) it returns exactly what the directory-hash
computation yields on `Dir` salted with the module's coordinates, and
flipping the `Vendored` flag never changes the result. -/
theorem moduleHash_no_vendored_special_case :
    ∀ (hashDir : String → String → Except String String) (m : Module) (b : Bool),
      Module.hashWith hashDir m = hashDir m.dir m.coordinates ∧
      Module.hashWith hashDir (m.withVendored b) = Module.hashWith hashDir m := by
  intro hashDir m b
  constructor
  · unfold Module.hashWith
    cases hashDir m.dir m.coordinates <;> rfl
  · cases m with
    | mk d mn p r v ven =>
      unfold Module.hashWith
      rfl

/-- Helper: any successfully parsed vendor-manifest record, replacement
or not, derives its directory from the original (left-hand) path. -/
theorem parseVendorFields_ok_dir (root line : String) (fields : List String)
    (m : Module) (hok : parseVendorFields root line fields = .ok m) :
    (∀ r, m.replace = some r → r.dir = filepathJoin [root, "vendor", m.path]) ∧
    (m.replace = none → m.dir = filepathJoin [root, "vendor", m.path]) := by
  unfold parseVendorFields at hok
  simp only [] at hok
  by_cases ha : stringSliceIndex fields "=>" = -1
  · rw [if_pos ha] at hok
    by_cases hl : fields.length ≠ 2
    · rw [if_pos hl] at hok
      cases hok
    · rw [if_neg hl] at hok
      cases hok
      refine ⟨?_, ?_⟩
      · intro r hr
        simp only [Module.replace] at hr
        cases hr
      · intro _
        simp [Module.dir, Module.path]
  · rw [if_neg ha] at hok
    cases hget : fields.get? ((stringSliceIndex fields "=>").toNat + 1) with
    | none =>
      rw [hget] at hok
      cases hok
    | some pathReplacement =>
      rw [hget] at hok
      cases hok
      refine ⟨?_, ?_⟩
      · intro r hr
        simp only [Module.replace] at hr
        cases hr
        simp [Module.dir, Module.path]
      · intro hr
        simp only [Module.replace] at hr
        exact Option.noConfusion hr

/-- C2: whenever a vendor-manifest descriptive line parses successfully,
a replacement record's directory is `<root>/vendor/<original Path>` (the
parent's path, left of the arrow), and a non-replacement record's
directory is `<root>/vendor/<Path>`; in both cases the parsed record's
`Path` field holds the original (left-hand) path, and the single-line
manifest yields exactly that record. -/
theorem parseVendoredModules_dir_derivation :
    ∀ (root l : String) (m : Module),
      strStartsWith (trimSpace l) "# " = true →
      parseVendorFields root (trimSpace l)
        (strFields (trimPrefixOf (trimSpace l) "# ")) = .ok m →
      ((∀ r, m.replace = some r →
          r.dir = filepathJoin [root, "vendor", m.path]) ∧
       (m.replace = none → m.dir = filepathJoin [root, "vendor", m.path]) ∧
       parseVendoredModules root [l] = .ok [m]) := by
  intro root l m hpre hok
  obtain ⟨h1, h2⟩ := parseVendorFields_ok_dir root (trimSpace l)
    (strFields (trimPrefixOf (trimSpace l) "# ")) m hok
  refine ⟨h1, h2, ?_⟩
  simp [parseVendoredModules, hpre, hok]

/-- Witness for C2 at the spec's own example: the replacement line
`# github.com/foo/bar v1.2.3 => ../local/bar` under root `/proj` puts
the replacement in `/proj/vendor/github.com/foo/bar` (the original's
path), and a plain line `# a v1` puts the module in `/proj/vendor/a`. -/
theorem parseVendoredModules_dir_derivation_witness :
    (Module.mk "/proj/vendor/github.com/foo/bar" false "../local/bar" none ""
        true).dir = "/proj/vendor/github.com/foo/bar" ∧
    parseVendoredModules "/proj" ["# github.com/foo/bar v1.2.3 => ../local/bar"] =
      .ok [Module.mk "" false "github.com/foo/bar"
        (some (Module.mk "/proj/vendor/github.com/foo/bar" false "../local/bar"
          none "" true)) "v1.2.3" false] ∧
    parseVendoredModules "/proj" ["# a v1"] =
      .ok [Module.mk "/proj/vendor/a" false "a" none "v1" true] := by
  refine ⟨rfl, ?_, ?_⟩
  · exact (parseVendoredModules_dir_derivation "/proj"
      "# github.com/foo/bar v1.2.3 => ../local/bar"
      (Module.mk "" false "github.com/foo/bar"
        (some (Module.mk "/proj/vendor/github.com/foo/bar" false "../local/bar"
          none "" true)) "v1.2.3" false)
      (by decide) rfl).2.2
  · exact (parseVendoredModules_dir_derivation "/proj" "# a v1"
      (Module.mk "/proj/vendor/a" false "a" none "v1" true)
      (by decide) rfl).2.2

/-- C6 (code bug): on the descriptive line `# example.com/a =>` — a line
containing the arrow with no field after it — `parseVendoredModules` does
not return a parse error: the Go code reads `fields[arrowIndex+1]` with
`arrowIndex+1` out of range, an uncaught runtime panic (modelled by
`POut.crash`), while the wrong-field-count error return is only reached
on arrow-free lines. -/
theorem parseVendoredModules_arrow_crash :
    parseVendoredModules "/root" ["# example.com/a =>"] = POut.crash ∧
    parseVendoredModules "/root" ["# example.com/a =>"] ≠
      POut.err ("expected two fields per line, but got 2: example.com/a =>") := by
  exact ⟨rfl, fun h => POut.noConfusion h⟩

/-- Helper: with fuel fixed, the digit list of `n < 10^w` has at most `w`
digits. -/
theorem natDigitsRevAux_length_le (fuel : Nat) :
    ∀ (w n : Nat), n < 10 ^ w → (natDigitsRevAux fuel n).length ≤ w := by
  induction fuel with
  | zero =>
    intro w n _
    cases n <;> simp [natDigitsRevAux]
  | succ fuel ih =>
    intro w n hn
    cases n with
    | zero => simp [natDigitsRevAux]
    | succ k =>
      cases w with
      | zero =>
        rw [pow_zero] at hn
        omega
      | succ w =>
        simp only [natDigitsRevAux, List.length_cons]
        have hdiv : (k + 1) / 10 < 10 ^ w := by
          rw [Nat.div_lt_iff_lt_mul (by decide : 0 < 10)]
          calc k + 1 < 10 ^ (w + 1) := hn
            _ = 10 ^ w * 10 := by ring
        exact Nat.succ_le_succ (ih w _ hdiv)

/-- Helper: the decimal representation of `n < 10^w` (with `1 ≤ w`) has
at most `w` characters. -/
theorem natToDec_length_le (w n : Nat) (hw : 1 ≤ w) (hn : n < 10 ^ w) :
    (natToDec n).length ≤ w := by
  unfold natToDec
  by_cases h : n = 0
  · simp [h, hw]
  · rw [if_neg h]
    rw [List.length_reverse]
    exact natDigitsRevAux_length_le n w n hn

/-- Helper: zero-padding to width `w` yields exactly `w` characters for
`n < 10^w`. -/
theorem padNum_length (w n : Nat) (hw : 1 ≤ w) (hn : n < 10 ^ w) :
    (padNum w n).length = w := by
  have hle := natToDec_length_le w n hw hn
  show (List.replicate (w - (natToDec n).length) '0' ++ natToDec n).length = w
  rw [List.length_append, List.length_replicate]
  omega

/-- Helper: every decimal digit character is a digit. -/
theorem digitChar_isDigit : ∀ d, d < 10 → (digitChar d).isDigit = true := by
  decide

/-- Helper: every character produced by `natDigitsRevAux` is a digit. -/
theorem natDigitsRevAux_all_digit (fuel : Nat) :
    ∀ (n : Nat), ∀ c ∈ natDigitsRevAux fuel n, c.isDigit = true := by
  induction fuel with
  | zero =>
    intro n c hc
    cases n <;> simp [natDigitsRevAux] at hc
  | succ fuel ih =>
    intro n c hc
    cases n with
    | zero => simp [natDigitsRevAux] at hc
    | succ k =>
      simp only [natDigitsRevAux, List.mem_cons] at hc
      rcases hc with rfl | hc
      · exact digitChar_isDigit _ (Nat.mod_lt _ (by decide))
      · exact ih _ c hc

/-- Helper: every character of `natToDec n` is a digit. -/
theorem natToDec_all_digit (n : Nat) : ∀ c ∈ natToDec n, c.isDigit = true := by
  intro c hc
  unfold natToDec at hc
  by_cases h : n = 0
  · rw [if_pos h] at hc
    simp at hc
    subst hc
    decide
  · rw [if_neg h] at hc
    rw [List.mem_reverse] at hc
    exact natDigitsRevAux_all_digit n n c hc

/-- Helper: every character of `padNum w n` is a digit. -/
theorem padNum_all_digit (w n : Nat) : ∀ c ∈ (padNum w n).data, c.isDigit = true := by
  intro c hc
  have hc' : c ∈ List.replicate (w - (natToDec n).length) '0' ++ natToDec n := hc
  rcases List.mem_append.mp hc' with h | h
  · rw [List.eq_of_mem_replicate h]
    decide
  · exact natToDec_all_digit n c h

/-- Helper: for in-range time fields the `YYYYMMDDHHMMSS` rendering is a
14-character all-digit string. -/
theorem format14_spec (t : GitTime) (hy : t.year < 10000) (hmo : t.month < 100)
    (hd : t.day < 100) (hh : t.hour < 100) (hmi : t.minute < 100)
    (hs : t.second < 100) :
    t.format14.length = 14 ∧ ∀ c ∈ t.format14.data, c.isDigit = true := by
  have h4 : (10 : Nat) ^ 4 = 10000 := by norm_num
  have h2 : (10 : Nat) ^ 2 = 100 := by norm_num
  constructor
  · unfold GitTime.format14
    rw [String.length_append, String.length_append, String.length_append,
      String.length_append, String.length_append]
    rw [padNum_length 4 t.year (by decide) (h4 ▸ hy),
      padNum_length 2 t.month (by decide) (h2 ▸ hmo),
      padNum_length 2 t.day (by decide) (h2 ▸ hd),
      padNum_length 2 t.hour (by decide) (h2 ▸ hh),
      padNum_length 2 t.minute (by decide) (h2 ▸ hmi),
      padNum_length 2 t.second (by decide) (h2 ▸ hs)]
  · intro c hc
    unfold GitTime.format14 at hc
    rw [String.data_append, String.data_append, String.data_append,
      String.data_append, String.data_append] at hc
    rcases List.mem_append.mp hc with hc1 | hc6
    · rcases List.mem_append.mp hc1 with hc2 | hc5
      · rcases List.mem_append.mp hc2 with hc3 | hc4
        · rcases List.mem_append.mp hc3 with hc7 | hc8
          · rcases List.mem_append.mp hc7 with hc9 | hc10
            · exact padNum_all_digit 4 t.year c hc9
            · exact padNum_all_digit 2 t.month c hc10
          · exact padNum_all_digit 2 t.day c hc8
        · exact padNum_all_digit 2 t.hour c hc4
      · exact padNum_all_digit 2 t.minute c hc5
    · exact padNum_all_digit 2 t.second c hc6

/-- C3: version resolution tries the tag-based strategy first and
returns its result on success; exactly when the tag-based strategy fails
does it fall back to the pseudo-version, which — whenever the head
commit is found — has the form `v0.0.0-` + the author time rendered as
`YYYYMMDDHHMMSS` + `-` + the first 12 characters of the commit hash,
the timestamp being a 14-digit string for in-range time fields. -/
theorem getModuleVersion_strategy_order :
    (∀ (po : Except String GitRepo) (v : String),
      GetVersionFromTag po = .ok v → GetModuleVersion po = .ok v)
    ∧
    (∀ (po : Except String GitRepo) (e : String),
      GetVersionFromTag po = .error e →
      GetModuleVersion po = GetPseudoVersion po)
    ∧
    (∀ (repo : GitRepo) (headRef : GitReference) (c : GitCommit),
      repo.head = .ok headRef → repo.commitObject headRef.hash = .ok c →
      GetPseudoVersion (.ok repo) =
        .ok ("v0.0.0-" ++ c.authorWhen.format14 ++ "-" ++ strTake c.hash 12))
    ∧
    (∀ t : GitTime, t.year < 10000 → t.month < 100 → t.day < 100 →
      t.hour < 100 → t.minute < 100 → t.second < 100 →
      t.format14.length = 14 ∧ ∀ c ∈ t.format14.data, c.isDigit = true) := by
  refine ⟨?_, ?_, ?_, ?_⟩
  · intro po v h
    simp only [GetModuleVersion, h]
  · intro po e h
    simp only [GetModuleVersion, h]
    cases hp : GetPseudoVersion po <;> rfl
  · intro repo headRef c hhead hco
    simp only [GetPseudoVersion, hhead, hco]
  · intro t hy hmo hd hh hmi hs
    exact format14_spec t hy hmo hd hh hmi hs

/-- Witness for C3 at concrete repositories: with a `v2.0.0` tag on the
checked-out commit the tag wins; without any tag the result is the
pseudo-version built from the commit's author time and the first 12
characters of its hash, a 14-digit timestamp in the middle. -/
theorem getModuleVersion_strategy_order_witness :
    GetModuleVersion (.ok ⟨.ok ⟨"HEAD", "h1"⟩,
      .ok [⟨"refs/tags/v2.0.0", "h1"⟩],
      [("h1", ⟨"0123456789abcdef0123456789abcdef01234567",
        ⟨2021, 3, 5, 7, 9, 11⟩⟩)]⟩) = .ok "v2.0.0" ∧
    GetModuleVersion (.ok ⟨.ok ⟨"HEAD", "h1"⟩, .ok [],
      [("h1", ⟨"0123456789abcdef0123456789abcdef01234567",
        ⟨2021, 3, 5, 7, 9, 11⟩⟩)]⟩) =
      GetPseudoVersion (.ok ⟨.ok ⟨"HEAD", "h1"⟩, .ok [],
        [("h1", ⟨"0123456789abcdef0123456789abcdef01234567",
          ⟨2021, 3, 5, 7, 9, 11⟩⟩)]⟩) ∧
    GetPseudoVersion (.ok ⟨.ok ⟨"HEAD", "h1"⟩, .ok [],
      [("h1", ⟨"0123456789abcdef0123456789abcdef01234567",
        ⟨2021, 3, 5, 7, 9, 11⟩⟩)]⟩) =
      .ok "v0.0.0-20210305070911-0123456789ab" ∧
    (GitTime.format14 ⟨2021, 3, 5, 7, 9, 11⟩).length = 14 := by
  refine ⟨?_, ?_, ?_, ?_⟩
  · exact getModuleVersion_strategy_order.1 _ "v2.0.0" rfl
  · exact getModuleVersion_strategy_order.2.1 _ "object not found" rfl
  · have h := getModuleVersion_strategy_order.2.2.1
      ⟨.ok ⟨"HEAD", "h1"⟩, .ok [],
        [("h1", ⟨"0123456789abcdef0123456789abcdef01234567",
          ⟨2021, 3, 5, 7, 9, 11⟩⟩)]⟩
      ⟨"HEAD", "h1"⟩
      ⟨"0123456789abcdef0123456789abcdef01234567", ⟨2021, 3, 5, 7, 9, 11⟩⟩
      rfl rfl
    exact h.trans (congrArg Except.ok (by decide))
  · exact (getModuleVersion_strategy_order.2.2.2 ⟨2021, 3, 5, 7, 9, 11⟩
      (by decide) (by decide) (by decide) (by decide) (by decide) (by decide)).1

/-- A concrete repository on which both strategies fail, with two
distinguishable causes: listing the tags fails (so the tag-based
strategy errors with the listing failure), and the head commit is
missing from the object store (so the pseudo-version strategy errors
with the lookup failure). -/
def bothFailRepo : GitRepo :=
  ⟨.ok ⟨"HEAD", "h1"⟩, .error "tag listing failed", []⟩

/-- Whether `sub` occurs as a contiguous run inside the character list. -/
def listHasInfix (sub : List Char) : List Char → Bool
  | [] => sub.isEmpty
  | c :: cs => sub.isPrefixOf (c :: cs) || listHasInfix sub cs

/-- Whether `sub` occurs as a contiguous substring of `s`. -/
def strContainsSubstr (s sub : String) : Bool :=
  listHasInfix sub.data s.data

/-- C9 (counterexample): when both strategies fail with distinguishable
causes, the error returned by `GetModuleVersion` is exactly the
pseudo-version strategy's error; the tag-based strategy's cause is not
combined into it (it is not even a substring of the returned message),
refuting the claim that the returned error carries both causes. -/
theorem getModuleVersion_error_not_combined :
    GetVersionFromTag (.ok bothFailRepo) = .error "tag listing failed" ∧
    GetPseudoVersion (.ok bothFailRepo) = .error "object not found" ∧
    GetModuleVersion (.ok bothFailRepo) = .error "object not found" ∧
    strContainsSubstr "object not found" "tag listing failed" = false ∧
    "object not found" ≠ "tag listing failed" := by
  exact ⟨rfl, rfl, rfl, by decide, by decide⟩

/-- C9 (amended): when both strategies fail, `GetModuleVersion` returns
the pseudo-version strategy's error alone; the tag-based strategy's
error is discarded. -/
theorem getModuleVersion_error_is_pseudo_only :
    ∀ (po : Except String GitRepo) (e1 e2 : String),
      GetVersionFromTag po = .error e1 → GetPseudoVersion po = .error e2 →
      GetModuleVersion po = .error e2 := by
  intro po e1 e2 h1 h2
  simp only [GetModuleVersion, h1, h2]

/-- Witness for the amended C9 at the concrete repository on which both
strategies fail. -/
theorem getModuleVersion_error_is_pseudo_only_witness :
    GetModuleVersion (.ok bothFailRepo) = .error "object not found" :=
  getModuleVersion_error_is_pseudo_only (.ok bothFailRepo)
    "tag listing failed" "object not found" rfl rfl

/-- C7: a relative local-replacement path (outside the module cache) is
resolved by joining it onto the main module's root, and when the joined
directory is not a valid module root `resolveLocalModule` fails with the
`not a Go module` error (first conjunct); any module in the list whose
triggering replacement cannot be resolved makes the whole
replacement-resolution pass of `GetModules` return an error (second
conjunct). -/
theorem resolveLocalModule_join_fatal :
    (∀ (env : GoEnv) (mainModulePath : String) (module : Module),
      (env.isGoModule module.dir &&
        strStartsWith module.dir env.moduleCacheDir) = false →
      filepathIsAbs module.path = false →
      env.isGoModule (filepathJoin [mainModulePath, module.path]) = false →
      resolveLocalModule env mainModulePath module = .error errNoGoModule)
    ∧
    (∀ (env : GoEnv) (path : String) (modules : List Module) (m r : Module),
      m ∈ modules → m.replace = some r → env.isGoModule r.path = true →
      (∀ x, resolveLocalModule env path r ≠ .ok x) →
      ∃ e, resolveReplacements env path modules = .error e) := by
  constructor
  · intro env mainModulePath module hcache habs hjoin
    unfold resolveLocalModule
    rw [hcache]
    simp only [Bool.false_eq_true, if_false]
    rw [habs]
    simp only [Bool.false_eq_true, if_false, hjoin]
    rfl
  · intro env path modules m r hmem hrep hgo hfail
    induction modules with
    | nil => cases hmem
    | cons hd tl ih =>
      rcases List.mem_cons.mp hmem with rfl | hmem'
      · cases hres : resolveLocalModule env path r with
        | error e =>
          refine ⟨"resolving local module " ++ r.coordinates ++
            " failed: " ++ e, ?_⟩
          simp only [resolveReplacements, hrep, hgo, if_true, hres]
        | ok x => exact absurd hres (hfail x)
      · rcases ih hmem' with ⟨e, he⟩
        unfold resolveReplacements
        cases hhd : hd.replace with
        | none =>
          dsimp only
          rw [he]
          exact ⟨e, rfl⟩
        | some r' =>
          dsimp only
          by_cases hgo' : env.isGoModule r'.path = true
          · rw [if_pos hgo']
            cases hres : resolveLocalModule env path r' with
            | error e' => exact ⟨_, rfl⟩
            | ok r2 => rw [he]; exact ⟨e, rfl⟩
          · rw [if_neg hgo']
            rw [he]
            exact ⟨e, rfl⟩

/-- The local replacement used by the C7 witness: declared with the
relative path `lib` and a directory outside the module cache. -/
def c7Rep : Module := Module.mk "/elsewhere" false "lib" none "" false

/-- A module whose replacement is [[c7Rep]], for the C7 witness. -/
def c7Orig : Module := Module.mk "" false "orig" (some c7Rep) "v1" false

/-- Environment for the C7 witness: only the main root `/main` and the
literal path string `lib` count as module roots, so the joined
`/main/lib` is not one. -/
def c7Env : GoEnv :=
  ⟨fun p => p == "/main" || p == "lib", "/cache", fun _ => .error "unused",
    fun _ => .error "unused"⟩

/-- Witness for C7: the relative replacement fails with `not a Go
module`, and the whole replacement-resolution pass over a one-module
list errors. -/
theorem resolveLocalModule_join_fatal_witness :
    resolveLocalModule c7Env "/main" c7Rep = .error errNoGoModule ∧
    (∃ e, resolveReplacements c7Env "/main" [c7Orig] = .error e) := by
  have h1 : resolveLocalModule c7Env "/main" c7Rep = .error errNoGoModule :=
    resolveLocalModule_join_fatal.1 c7Env "/main" c7Rep rfl rfl rfl
  refine ⟨h1, ?_⟩
  exact resolveLocalModule_join_fatal.2 c7Env "/main" [c7Orig] c7Orig c7Rep
    (by simp) rfl rfl (fun x h => by rw [h1] at h; cases h)

/-- C8: when a local replacement outside the module cache resolves to a
valid module root, its identity query succeeds, it declares no version,
and the version resolver fails on its directory, `resolveLocalModule`
still returns success — the module with only its path rewritten — and
the version stays empty. -/
theorem resolveLocalModule_version_soft_failure :
    ∀ (env : GoEnv) (mainModulePath modulePath : String) (module lm : Module)
      (e : String),
      (env.isGoModule module.dir &&
        strStartsWith module.dir env.moduleCacheDir) = false →
      modulePath = (if filepathIsAbs module.path then module.path
        else filepathJoin [mainModulePath, module.path]) →
      env.isGoModule modulePath = true →
      env.getModule modulePath = .ok lm →
      module.version = "" →
      GetModuleVersion (env.plainOpen module.dir) = .error e →
      resolveLocalModule env mainModulePath module = .ok (module.withPath lm.path) ∧
      (module.withPath lm.path).version = "" := by
  intro env mainModulePath modulePath module lm e hcache hmp hgo hget hver hfail
  subst hmp
  constructor
  · unfold resolveLocalModule
    rw [hcache]
    simp only [Bool.false_eq_true, if_false]
    rw [hgo]
    simp only [Bool.not_true, Bool.false_eq_true, if_false, hget]
    have hver' : (module.withPath lm.path).version = "" := by
      cases module with
      | mk d mn p r v ven => simpa [Module.withPath, Module.version] using hver
    have hdir : (module.withPath lm.path).dir = module.dir := by
      cases module with
      | mk d mn p r v ven => rfl
    rw [if_pos hver', hdir, hfail]
  · cases module with
    | mk d mn p r v ven => simpa [Module.withPath, Module.version] using hver

/-- The re-queried identity of the C8 witness replacement: the module
rooted at `/main/lib` with true path `example.com/lib`. -/
def c8Lm : Module := Module.mk "/main/lib" false "example.com/lib" none "" false

/-- Environment for the C8 witness: `/main/lib` is the only module root,
its identity query yields [[c8Lm]], and no directory opens as a git
repository. -/
def c8Env : GoEnv :=
  ⟨fun p => p == "/main/lib", "/cache",
    fun p => if p == "/main/lib" then .ok c8Lm else .error "no module",
    fun _ => .error "repository does not exist"⟩

/-- Witness for C8: the undeclared-version replacement at `/main/lib`
resolves successfully with only its path rewritten, the version left
empty, even though the version resolver fails. -/
theorem resolveLocalModule_version_soft_failure_witness :
    resolveLocalModule c8Env "/main"
      (Module.mk "/main/lib" false "lib" none "" false) =
      .ok ((Module.mk "/main/lib" false "lib" none "" false).withPath
        c8Lm.path) ∧
    ((Module.mk "/main/lib" false "lib" none "" false).withPath
      c8Lm.path).version = "" :=
  resolveLocalModule_version_soft_failure c8Env "/main" "/main/lib"
    (Module.mk "/main/lib" false "lib" none "" false) c8Lm
    "repository does not exist" rfl rfl rfl rfl rfl rfl

end Gomod
